import Mathlib

/-!
# Convolution layer forward pass (`src/conv_net.cpp`)

A shallow embedding of `ConvNet::Execute`: the shape arithmetic, the im2col loop nest of the
host path, the per-sample batch loop with its two execution paths, and the allocation and
release calls.

Conventions of the embedding.

* C `int` values are integers (`Int`); `/` on `int` is truncating division (`Int.tdiv`).
  Signed overflow is undefined behaviour in C++, so the embedding describes the executions in
  which the products of the dimensions fit in an `int`.
* A buffer of floats is a function from element offsets to values, over an arbitrary element
  type `α` (exact arithmetic in a semiring where the multiply is involved). A pointer into a
  buffer is the element offset from the head of that buffer.
* Every `for` loop is run by `forLoop`, which evaluates the loop test at most `fuel` times and
  yields `none` when the fuel is used up before the test fails.
* Fields marked *ghost* record what the code does (the memcpy calls, the windows visited, the
  allocation and release calls); they never influence the computed values.
-/

namespace ConvNet

/-! ## Data model -/

/-- A tensor as seen through the accessors used by `Execute`: `num()`, `channels()`,
`height()`, `width()` (all returning `int`) and the flat `data()`. -/
structure Blob (α : Type) where
  num : Int
  channels : Int
  height : Int
  width : Int
  data : Int → α

/-- The tensor of shape `(n, c, h, w)` over the flat data `data`. -/
def Blob.ofShape {α : Type} (n c h w : Nat) (data : Int → α) : Blob α :=
  { num := n, channels := c, height := h, width := w, data := data }

/-- One `memcpy` call of the im2col loop nest, in elements: destination offset from `mat_head`,
source offset from `src_data`, element count. -/
structure Copy where
  dst : Int
  src : Int
  len : Int
deriving DecidableEq, Repr

/-- State of the im2col loop nest (lines 135-148): the contents of the scratch buffer at
`mat_head`, the cursor `mat_data` as an offset from `mat_head`, and two ghost traces. -/
structure Im2col (α : Type) where
  mat : Int → α
  mat_data : Int
  /-- ghost: the memcpy calls issued so far, oldest first -/
  copies : List Copy
  /-- ghost: the window origins `(sh, sw)` entered so far, oldest first -/
  windows : List (Int × Int)

/-- The buffers named in `Execute`. -/
inductive Buf
  | dPtr_ifm
  | dPtr_ofm
  | dPtr_weights
  | dst_head
  | mat_head
deriving DecidableEq, Repr

/-- Allocation and release calls made by `Execute`, with element counts for allocations. -/
inductive Event
  | cudaMalloc (b : Buf) (elems : Int)
  | cudaFree (b : Buf)
  | hostNew (b : Buf) (elems : Int)
  | hostDelete (b : Buf)
deriving DecidableEq, Repr

/-- The indeterminate contents that freshly allocated buffers expose (`cudaMalloc` and
`new float[]` do not initialise). -/
structure Heap (α : Type) where
  dPtr_ifm : Int → α
  dPtr_ofm : Int → α
  dPtr_weights : Int → α
  dst_head : Int → α
  mat_head : Int → α

/-- Mutable state of `Execute` across the batch loop (lines 107-195). -/
structure Exec (α : Type) where
  dPtr_ifm : Int → α
  dPtr_ofm : Int → α
  dPtr_weights : Int → α
  dst_head : Int → α
  mat_head : Int → α
  /-- the pointer `src_data` as an offset from `input->data()` -/
  src_data : Int
  /-- the pointer `dst_data` as an offset from `dPtr_ofm` -/
  dst_data : Int
  /-- ghost: allocation and release calls so far, oldest first -/
  events : List Event

/-- The values computed at lines 88-110 of `Execute`. -/
structure Locals where
  src_num : Int
  src_channels : Int
  src_h : Int
  src_w : Int
  dst_channels : Int
  kernel_h : Int
  kernel_w : Int
  dst_h : Int
  dst_w : Int
  end_h : Int
  end_w : Int
  dst_size : Int
  kernel_size : Int
  src_num_offset : Int
  size_ifm : Int
  size_ofm : Int
deriving DecidableEq, Repr

/-- How a call ended. -/
inductive Status
  | ok
  | ShapeMismatch
deriving DecidableEq, Repr

/-- What a call to `Execute` leaves behind. -/
structure Result (α : Type) where
  status : Status
  /-- the output tensor `output_blobs(0)` -/
  output : Blob α
  /-- ghost: allocation and release calls of the call, oldest first -/
  events : List Event
  /-- the final value of the pointer `dst_data`, as an offset from `dPtr_ofm` -/
  dst_data : Int

/-- The accelerator multiply as called at line 172: device input, device weights, device output
buffer (contents before the call), `dst_size`, `dst_channels`, `kernel_size`; the result is the
contents of the device output buffer after the call. -/
abbrev DeviceMultiply (α : Type) := (Int → α) → (Int → α) → (Int → α) → Int → Int → Int → (Int → α)

/-! ## Loops and block copies -/

/-- The loop `for (int i = i0; i < stop; i += step) body`, with `body` acting on the state. -/
def forLoop {σ : Type} (fuel : Nat) (i stop step : Int) (body : Int → σ → Option σ) (s : σ) :
    Option σ :=
  match fuel with
  | 0 => none
  | fuel + 1 =>
    if i < stop then
      match body i s with
      | none => none
      | some s' => forLoop fuel (i + step) stop step body s'
    else some s

/-- The block copy `memcpy(dst + d, src + s, sizeof(float) * n)`: elements `0 ≤ r < n` of the
source range land in the destination range. (Counts are dimensions of tensors, never
negative.) -/
def memcpy {α : Type} (dst : Int → α) (d : Int) (src : Int → α) (s : Int) (n : Int) : Int → α :=
  fun k => if d ≤ k ∧ k < d + n then src (s + (k - d)) else dst k

/-! ## Shape arithmetic (lines 88-110) -/

/-- The constant of `#define CONV1 3*9*9*48`. -/
def CONV1 : Int := 3 * 9 * 9 * 48

/-- Lines 88-110. -/
def locals {α : Type} (stride_h_ stride_w_ : Int) (input weight : Blob α) : Locals :=
  let src_num := input.num
  let src_channels := input.channels
  let src_h := input.height
  let src_w := input.width
  let dst_channels := weight.num
  let kernel_h := weight.height
  let kernel_w := weight.width
  let dst_h := (src_h - kernel_h).tdiv stride_h_ + 1
  let dst_w := (src_w - kernel_w).tdiv stride_w_ + 1
  let end_h := src_h - kernel_h + 1
  let end_w := src_w - kernel_w + 1
  let dst_size := dst_h * dst_w
  let kernel_size := src_channels * kernel_h * kernel_w
  let src_num_offset := src_channels * src_h * src_w
  let size_ifm := src_w * src_h * src_channels
  let size_ofm := dst_w * dst_h * dst_channels
  { src_num := src_num, src_channels := src_channels, src_h := src_h, src_w := src_w,
    dst_channels := dst_channels, kernel_h := kernel_h, kernel_w := kernel_w,
    dst_h := dst_h, dst_w := dst_w, end_h := end_h, end_w := end_w, dst_size := dst_size,
    kernel_size := kernel_size, src_num_offset := src_num_offset, size_ifm := size_ifm,
    size_ofm := size_ofm }

/-! ## The im2col loop nest (lines 135-148) -/

/-- Lines 141-144: one block copy of `kernel_w` elements, then `mat_data += kernel_w` and
`src_off += src_w`. The loop state is the im2col state together with `src_off`. -/
def copyRow {α : Type} (src_data : Int → α) (kernel_w src_w : Int) (p : Im2col α × Int) :
    Im2col α × Int :=
  ({ mat := memcpy p.1.mat p.1.mat_data src_data p.2 kernel_w
     mat_data := p.1.mat_data + kernel_w
     copies := p.1.copies ++ [{ dst := p.1.mat_data, src := p.2, len := kernel_w }]
     windows := p.1.windows }, p.2 + src_w)

/-- Lines 139-145: the body of the `sc` loop, for one channel of one window. -/
def channelBody {α : Type} (fuel : Nat) (src_data : Int → α) (src_h src_w kernel_h kernel_w : Int)
    (sh sw sc : Int) (st : Im2col α) : Option (Im2col α) :=
  let src_off := (sc * src_h + sh) * src_w + sw
  (forLoop fuel 0 kernel_h 1 (fun _ p => some (copyRow src_data kernel_w src_w p))
    (st, src_off)).map Prod.fst

/-- Lines 138-146: the body of the `sw` loop, one window. -/
def windowBody {α : Type} (fuel : Nat) (src_data : Int → α)
    (src_channels src_h src_w kernel_h kernel_w : Int) (sh sw : Int) (st : Im2col α) :
    Option (Im2col α) :=
  forLoop fuel 0 src_channels 1
    (fun sc st => channelBody fuel src_data src_h src_w kernel_h kernel_w sh sw sc st)
    { st with windows := st.windows ++ [(sh, sw)] }

/-- Lines 137-147: the body of the `sh` loop, one row of windows. -/
def rowBody {α : Type} (fuel : Nat) (src_data : Int → α)
    (src_channels src_h src_w kernel_h kernel_w end_w stride_w_ : Int) (sh : Int)
    (st : Im2col α) : Option (Im2col α) :=
  forLoop fuel 0 end_w stride_w_
    (fun sw st => windowBody fuel src_data src_channels src_h src_w kernel_h kernel_w sh sw st) st

/-- Lines 135-148: the whole loop nest, started with `mat_data = mat_head`. -/
def im2col {α : Type} (fuel : Nat) (src_data : Int → α)
    (src_channels src_h src_w kernel_h kernel_w end_h end_w stride_h_ stride_w_ : Int)
    (mat_head : Int → α) : Option (Im2col α) :=
  forLoop fuel 0 end_h stride_h_
    (fun sh st =>
      rowBody fuel src_data src_channels src_h src_w kernel_h kernel_w end_w stride_w_ sh st)
    { mat := mat_head, mat_data := 0, copies := [], windows := [] }

/-- Lines 135-148 as called on the host path: the loop nest over the sample at `src_data`
(an offset from `input->data()`), with the dimensions and loop bounds of lines 88-104. -/
def hostIm2col {α : Type} (fuel : Nat) (stride_h_ stride_w_ : Int) (input : Blob α) (l : Locals)
    (src_data : Int) (mat_head : Int → α) : Option (Im2col α) :=
  im2col fuel (fun k => input.data (src_data + k)) l.src_channels l.src_h l.src_w
    l.kernel_h l.kernel_w l.end_h l.end_w stride_h_ stride_w_ mat_head

/-- Ghost: the number of elements written by a list of memcpy calls. -/
def copied (cs : List Copy) : Int := (cs.map Copy.len).sum

/-! ## The multiply -/

/-- The dot product of two rows of `k` elements. -/
def dot {α : Type} [Semiring α] (x y : Int → α) (k : Int) : α :=
  ((List.range k.toNat).map (fun (t : Nat) => x (t : Int) * y (t : Int))).sum

/-- Modelled from the spec: `matrix_procuct` of `math_functions.h`, which is not among the
sources. Section 4.4: `Output[position, out_channel] = Σ over kernel_size of
ReceptiveFieldVector[position, k] × Filter[out_channel, k]`, with `A` holding `n` rows of `k`
elements (one per position), `B` holding `m` rows of `k` elements (one per output channel),
and no physical transpose. The result buffer `C` is the dense output that `CopyData` receives
with shape (batch, out_channels, out_height, out_width), channel-major (section 3), so the
entry of channel `oc` at position `pos` is `C[oc * n + pos]`; the `m * n` entries are written
and nothing else. The two flags of the call (`true, false`) select this operand layout. -/
def matrix_procuct {α : Type} [Semiring α] (A B C : Int → α) (n m k : Int) (_ta _tb : Bool) :
    Int → α :=
  fun idx =>
    if 0 ≤ idx ∧ idx < m * n then
      dot (fun t => A (idx % n * k + t)) (fun t => B (idx / n * k + t)) k
    else C idx

/-! ## `Execute` -/

/-- The path test of lines 131 and 168: `(CONV1 != kernel_size * dst_channels) && CUDA_C`.
The macro `CUDA_C` is defined outside the sources and is a parameter. -/
def useDevice (CUDA_C : Bool) (kernel_size dst_channels : Int) : Bool :=
  (CONV1 != kernel_size * dst_channels) && CUDA_C

/-- Lines 131-150: staging of the input of one sample. Accelerator path: the raw sample at
`src_data` is copied to `dPtr_ifm`. Host path: the im2col loop nest fills `mat_head`, then
`src_data += src_num_offset`. -/
def stageInput {α : Type} (fuel : Nat) (CUDA_C : Bool) (stride_h_ stride_w_ : Int)
    (input : Blob α) (l : Locals) (st : Exec α) : Option (Exec α) :=
  if useDevice CUDA_C l.kernel_size l.dst_channels then
    some { st with dPtr_ifm := memcpy st.dPtr_ifm 0 input.data st.src_data l.size_ifm }
  else
    (hostIm2col fuel stride_h_ stride_w_ input l st.src_data st.mat_head).map
      (fun r => { st with mat_head := r.mat, src_data := st.src_data + l.src_num_offset })

/-- Lines 161-188: the filter bank is copied to a fresh device buffer `dPtr_weights`; then
either the accelerator multiply runs, its result is fetched into `dst_head` and
`dPtr_weights` is freed, or the host multiply writes to `dst_head`. -/
def multiply {α : Type} [Semiring α] (CUDA_C : Bool) (cuda_matrix_procuct : DeviceMultiply α)
    (weight : Blob α) (heap : Heap α) (l : Locals) (st : Exec α) : Exec α :=
  let size_weights := l.kernel_size * l.dst_channels
  let st := { st with
    dPtr_weights := memcpy heap.dPtr_weights 0 weight.data 0 size_weights
    events := st.events ++ [Event.cudaMalloc Buf.dPtr_weights size_weights] }
  if useDevice CUDA_C l.kernel_size l.dst_channels then
    let ofm := cuda_matrix_procuct st.dPtr_ifm st.dPtr_weights st.dPtr_ofm
      l.dst_size l.dst_channels l.kernel_size
    { st with
      dPtr_ofm := ofm
      dst_head := memcpy st.dst_head 0 ofm 0 l.size_ofm
      events := st.events ++ [Event.cudaFree Buf.dPtr_weights] }
  else
    { st with
      dst_head := matrix_procuct st.mat_head weight.data st.dst_head
        l.dst_size l.dst_channels l.kernel_size true false }

/-- Lines 126-194: the body of the batch loop, one sample. -/
def sampleBody {α : Type} [Semiring α] (fuel : Nat) (CUDA_C : Bool)
    (cuda_matrix_procuct : DeviceMultiply α) (stride_h_ stride_w_ : Int)
    (input weight : Blob α) (heap : Heap α) (l : Locals) (st : Exec α) : Option (Exec α) :=
  (stageInput fuel CUDA_C stride_h_ stride_w_ input l st).map
    (fun st =>
      let st := multiply CUDA_C cuda_matrix_procuct weight heap l st
      { st with dst_data := st.dst_data + l.dst_channels * l.dst_size })

/-- Lines 107-120: the four allocations and the initial pointers. -/
def allocate {α : Type} (heap : Heap α) (l : Locals) : Exec α :=
  { dPtr_ifm := heap.dPtr_ifm
    dPtr_ofm := heap.dPtr_ofm
    dPtr_weights := heap.dPtr_weights
    dst_head := heap.dst_head
    mat_head := heap.mat_head
    src_data := 0
    dst_data := 0
    events := [Event.cudaMalloc Buf.dPtr_ifm l.size_ifm, Event.cudaMalloc Buf.dPtr_ofm l.size_ofm,
      Event.hostNew Buf.dst_head (l.src_num * l.dst_size * l.dst_channels),
      Event.hostNew Buf.mat_head (l.dst_size * l.kernel_size)] }

/-- Modelled from the spec: `Blob::CopyData`, whose class is not among the sources. Section 6:
a write operation that replaces the output tensor's contents and shape metadata from a flat
buffer plus explicit (batch, channels, height, width) arguments. -/
def CopyData {α : Type} (n c h w : Int) (buf : Int → α) : Blob α :=
  { num := n, channels := c, height := h, width := w, data := buf }

/-- Lines 201-206: the output tensor is written from `dst_head`, then the four buffers
allocated before the loop are released. (`CheckOutput()` at line 211 is not among the sources;
the spec has it compare the recorded shape with the computed one, which leaves the state
as it is.) -/
def finish {α : Type} (l : Locals) (st : Exec α) : Result α :=
  { status := Status.ok
    output := CopyData l.src_num l.dst_channels l.dst_h l.dst_w st.dst_head
    events := st.events ++ [Event.hostDelete Buf.mat_head, Event.hostDelete Buf.dst_head,
      Event.cudaFree Buf.dPtr_ifm, Event.cudaFree Buf.dPtr_ofm]
    dst_data := st.dst_data }

/-- Lines 84-211: `Execute` from the point where `CheckInput()` has returned. -/
def ExecuteAfterCheck {α : Type} [Semiring α] (fuel : Nat) (CUDA_C : Bool)
    (cuda_matrix_procuct : DeviceMultiply α) (stride_h_ stride_w_ : Int)
    (input weight : Blob α) (heap : Heap α) : Option (Result α) :=
  let l := locals stride_h_ stride_w_ input weight
  (forLoop fuel 0 l.src_num 1
    (fun _ st =>
      sampleBody fuel CUDA_C cuda_matrix_procuct stride_h_ stride_w_ input weight heap l st)
    (allocate heap l)).map (finish l)

/-- Modelled from the spec: `CheckInput()`, defined outside the sources. Section 4.1: it
confirms that channel counts and spatial dimensions are mutually consistent (input spatial
size at least the kernel size) and fails with ShapeMismatch otherwise; computation must not
proceed past this check. (That exactly one input and one weight tensor are bound holds of
every call of the embedding.) -/
def CheckInput {α : Type} (input weight : Blob α) : Bool :=
  decide (input.channels = weight.channels) && decide (weight.height ≤ input.height)
    && decide (weight.width ≤ input.width)

/-- Lines 75-212: `ConvNet::Execute`. A failed `CheckInput()` ends the call with ShapeMismatch,
the output tensor as it was and no allocation made. -/
def Execute {α : Type} [Semiring α] (fuel : Nat) (CUDA_C : Bool)
    (cuda_matrix_procuct : DeviceMultiply α) (stride_h_ stride_w_ : Int)
    (input weight output : Blob α) (heap : Heap α) : Option (Result α) :=
  if CheckInput input weight then
    ExecuteAfterCheck fuel CUDA_C cuda_matrix_procuct stride_h_ stride_w_ input weight heap
  else
    some { status := Status.ShapeMismatch, output := output, events := [], dst_data := 0 }

/-! ## Ghost counters over the event trace -/

/-- Number of device buffers allocated (`cudaMalloc`). -/
def deviceAllocs (es : List Event) : Nat :=
  es.countP (fun e => match e with | Event.cudaMalloc _ _ => true | _ => false)

/-- Number of device buffers freed (`cudaFree`). -/
def deviceFrees (es : List Event) : Nat :=
  es.countP (fun e => match e with | Event.cudaFree _ => true | _ => false)

/-- Number of host buffers allocated (`new float[]`). -/
def hostAllocs (es : List Event) : Nat :=
  es.countP (fun e => match e with | Event.hostNew _ _ => true | _ => false)

/-- Number of host buffers freed (`delete[]`). -/
def hostFrees (es : List Event) : Nat :=
  es.countP (fun e => match e with | Event.hostDelete _ => true | _ => false)

/-! ## The sliding-window sum of the specification -/

/-- The sliding-window sum: the sum over `c < C`, `i < kh`, `j < kw` of
`input[c, oh * stride_h + i, ow * stride_w + j] * filter[oc, c, i, j]`, for the input sample of
shape `(C, H, W)` that starts at offset `base` of `x` and the filter bank `wd` of shape
`(O, C, kh, kw)`, both row-major. -/
def windowSum {α : Type} [Semiring α] (x wd : Int → α) (C H W kh kw : Nat)
    (stride_h stride_w : Int) (base : Int) (oc oh ow : Nat) : α :=
  ∑ c in Finset.range C, ∑ i in Finset.range kh, ∑ j in Finset.range kw,
    x (base + (((c : Int) * H + oh * stride_h + i) * W + ow * stride_w + j))
      * wd ((((oc : Int) * C + c) * kh + i) * kw + j)

/-- The data `0, 1, 2, ...` in row-major order. -/
def ramp : Int → Int := fun k => k

/-- The all-ones data. -/
def ones : Int → Int := fun _ => 1

/-- Fresh buffers that happen to hold zeros. -/
def zeroHeap : Heap Int :=
  { dPtr_ifm := fun _ => 0, dPtr_ofm := fun _ => 0, dPtr_weights := fun _ => 0,
    dst_head := fun _ => 0, mat_head := fun _ => 0 }

/-- An accelerator multiply that leaves the device output buffer as it is (for calls that take
the host path, where it is not called). -/
def idleDevice : DeviceMultiply Int := fun _ _ ofm _ _ _ => ofm

/-- One stretch of the loop nest, from state `st` to state `st2`, seen as the filling of the
block of `len` elements that starts at the cursor of `st`:
* the cursor advances by `len`;
* nothing outside the block changes;
* whenever `Q r p` relates an offset `r` inside the block to a source offset `p`, the block
  holds `src p` at offset `r`;
* the memcpy calls added (ghost) copy `len` elements in all, each call has a source range
  accepted by `good` and a destination range inside the block;
* the windows entered (ghost) are `ws`. -/
structure Block {α : Type} (src : Int → α) (len : Int) (Q : Int → Int → Prop)
    (good : Int → Int → Prop) (ws : List (Int × Int)) (st st2 : Im2col α) : Prop where
  cursor : st2.mat_data = st.mat_data + len
  frame : ∀ k, k < st.mat_data ∨ st.mat_data + len ≤ k → st2.mat k = st.mat k
  content : ∀ r p, Q r p → st2.mat (st.mat_data + r) = src p
  trace : ∃ added, st2.copies = st.copies ++ added ∧ copied added = len ∧
    ∀ c ∈ added, good c.src c.len ∧ st.mat_data ≤ c.dst ∧ c.dst + c.len ≤ st.mat_data + len
  visited : st2.windows = st.windows ++ ws

/-! ## Proof rules for loops and blocks -/

/-- Total-correctness rule for `forLoop`: a loop that makes exactly `n` iterations, whose body
terminates and carries the invariant from iteration `t` to `t + 1`, terminates with the
invariant at `n`, provided the fuel exceeds `n`. -/
theorem forLoop_inv {σ : Type} (n : Nat) (step stop : Int) (body : Int → σ → Option σ) :
    ∀ (Inv : Nat → σ → Prop) (i0 : Int) (fuel : Nat) (s : σ),
      (∀ t : Nat, t < n → i0 + t * step < stop) →
      stop ≤ i0 + n * step →
      (∀ (t : Nat) (s : σ), t < n → Inv t s →
        ∃ s2, body (i0 + t * step) s = some s2 ∧ Inv (t + 1) s2) →
      n < fuel → Inv 0 s →
      ∃ s2, forLoop fuel i0 stop step body s = some s2 ∧ Inv n s2 := by
  induction n with
  | zero =>
    intro Inv i0 fuel s _ hout _ hfuel h0
    obtain ⟨f, rfl⟩ : ∃ f, fuel = f + 1 := ⟨fuel - 1, by omega⟩
    refine ⟨s, ?_, h0⟩
    have : ¬ i0 < stop := by simpa using hout
    simp [forLoop, this]
  | succ n ih =>
    intro Inv i0 fuel s hin hout hbody hfuel h0
    obtain ⟨f, rfl⟩ : ∃ f, fuel = f + 1 := ⟨fuel - 1, by omega⟩
    have h1 : i0 < stop := by simpa using hin 0 (Nat.succ_pos n)
    obtain ⟨s1, hs1, hI1⟩ := hbody 0 s (Nat.succ_pos n) h0
    have hs1' : body i0 s = some s1 := by simpa using hs1
    have key := ih (fun t => Inv (t + 1)) (i0 + step) f s1
      (fun t ht => by
        have := hin (t + 1) (by omega)
        push_cast at this
        linarith)
      (by push_cast at hout; linarith)
      (fun t s ht hI => by
        have := hbody (t + 1) s (by omega) hI
        have e : i0 + step + (t : Int) * step = i0 + ((t + 1 : Nat) : Int) * step := by
          push_cast; ring
        rw [e]; exact this)
      (by omega) hI1
    obtain ⟨s2, hs2, hI2⟩ := key
    refine ⟨s2, ?_, hI2⟩
    simp [forLoop, h1, hs1', hs2]

/-- The element count of a concatenated trace is the sum of the two counts. -/
theorem copied_append (a b : List Copy) : copied (a ++ b) = copied a + copied b := by
  simp [copied, List.map_append, List.sum_append]

/-- The empty stretch fills the empty block. -/
theorem Block.nil {α : Type} (src : Int → α) (good : Int → Int → Prop) (st : Im2col α) :
    Block src 0 (fun _ _ => False) good [] st st where
  cursor := by simp
  frame := fun _ _ => rfl
  content := fun _ _ h => h.elim
  trace := ⟨[], by simp, by simp [copied], by simp⟩
  visited := by simp

/-- Two consecutive stretches fill the concatenation of their blocks. -/
theorem Block.append {α : Type} {src : Int → α} {L1 L2 : Int} {Q1 Q2 : Int → Int → Prop}
    {good : Int → Int → Prop} {ws1 ws2 : List (Int × Int)} {st st1 st2 : Im2col α}
    (h1 : Block src L1 Q1 good ws1 st st1) (h2 : Block src L2 Q2 good ws2 st1 st2)
    (hL1 : 0 ≤ L1) (hL2 : 0 ≤ L2) (hQ1 : ∀ r p, Q1 r p → r < L1) :
    Block src (L1 + L2) (fun r p => Q1 r p ∨ ∃ r2, Q2 r2 p ∧ r = L1 + r2) good (ws1 ++ ws2)
      st st2 where
  cursor := by rw [h2.cursor, h1.cursor]; ring
  frame := by
    intro k hk
    have e1 := h1.cursor
    rw [h2.frame k (by omega), h1.frame k (by omega)]
  content := by
    intro r p h
    have e1 := h1.cursor
    rcases h with h | ⟨r2, h, rfl⟩
    · have := hQ1 r p h
      rw [h2.frame _ (by omega)]
      exact h1.content r p h
    · have := h2.content r2 p h
      rw [e1] at this
      rw [← this]; congr 1; ring
  trace := by
    obtain ⟨a1, e1, c1, g1⟩ := h1.trace
    obtain ⟨a2, e2, c2, g2⟩ := h2.trace
    have e := h1.cursor
    refine ⟨a1 ++ a2, by rw [e2, e1, List.append_assoc], by rw [copied_append, c1, c2], ?_⟩
    intro c hc
    rcases List.mem_append.1 hc with hc | hc
    · obtain ⟨g, lo, hi⟩ := g1 c hc
      exact ⟨g, lo, by omega⟩
    · obtain ⟨g, lo, hi⟩ := g2 c hc
      exact ⟨g, by omega, by omega⟩
  visited := by rw [h2.visited, h1.visited, List.append_assoc]

/-- A block statement may be restated with an equal length, an equal window list and a
content relation that asks for less. -/
theorem Block.weaken {α : Type} {src : Int → α} {L L2 : Int} {Q Q2 : Int → Int → Prop}
    {good : Int → Int → Prop} {ws ws2 : List (Int × Int)} {st st2 : Im2col α}
    (h : Block src L Q good ws st st2) (hL : L = L2) (hws : ws = ws2)
    (hQ : ∀ r p, Q2 r p → Q r p) : Block src L2 Q2 good ws2 st st2 := by
  subst hL; subst hws
  exact ⟨h.cursor, h.frame, fun r p q => h.content r p (hQ r p q), h.trace, h.visited⟩

/-- A loop of `n` iterations whose `t`-th iteration fills a block of `len` elements fills the
`n` blocks one after the other. The loop state may carry more than the im2col state (`π`
projects it out, `J` constrains the rest). -/
theorem forLoop_blocks {α σ : Type} (src : Int → α) (len : Int) (hlen : 0 ≤ len)
    (Q : Nat → Int → Int → Prop) (good : Int → Int → Prop) (w : Nat → List (Int × Int))
    (π : σ → Im2col α) (J : Nat → σ → Prop)
    (n : Nat) (stop step : Int) (body : Int → σ → Option σ)
    (hin : ∀ t : Nat, t < n → (t : Int) * step < stop)
    (hout : stop ≤ n * step)
    (hQ : ∀ t r p, Q t r p → 0 ≤ r ∧ r < len)
    (hbody : ∀ (t : Nat) (s : σ), t < n → J t s →
      ∃ s2, body (t * step) s = some s2 ∧ J (t + 1) s2 ∧
        Block src len (Q t) good (w t) (π s) (π s2))
    (fuel : Nat) (hfuel : n < fuel) (s : σ) (hJ : J 0 s) :
    ∃ s2, forLoop fuel 0 stop step body s = some s2 ∧ J n s2 ∧
      Block src (n * len)
        (fun r p => ∃ (t : Nat) (r2 : Int), t < n ∧ Q t r2 p ∧ r = t * len + r2) good
        ((List.range n).flatMap w) (π s) (π s2) := by
  have key := forLoop_inv n step stop body
    (fun t s2 => J t s2 ∧ Block src (t * len)
        (fun r p => ∃ (u : Nat) (r2 : Int), u < t ∧ Q u r2 p ∧ r = u * len + r2) good
        ((List.range t).flatMap w) (π s) (π s2))
    0 fuel s (by simpa using hin) (by simpa using hout)
    (by
      intro t s1 ht ⟨hJ1, hB1⟩
      obtain ⟨s2, e, hJ2, hB2⟩ := hbody t s1 ht hJ1
      refine ⟨s2, by simpa using e, hJ2, ?_⟩
      have htl : (0 : Int) ≤ t * len := mul_nonneg (Int.ofNat_nonneg t) hlen
      have hB := Block.append hB1 hB2 htl hlen (by
        rintro r p ⟨u, r2, hu, hq, rfl⟩
        have h2 := (hQ u r2 p hq).2
        have : ((u : Int) + 1) * len ≤ t * len :=
          mul_le_mul_of_nonneg_right (by exact_mod_cast hu) hlen
        linarith)
      refine hB.weaken (by push_cast; ring) (by simp [List.range_succ]) ?_
      rintro r p ⟨u, r2, hu, hq, rfl⟩
      rcases Nat.lt_succ_iff_lt_or_eq.1 hu with hu | rfl
      · exact Or.inl ⟨u, r2, hu, hq, rfl⟩
      · exact Or.inr ⟨r2, hq, rfl⟩)
    hfuel
    ⟨hJ, (Block.nil src good (π s)).weaken (by simp) (by simp) (by
      rintro r p ⟨u, r2, hu, _⟩
      exact absurd hu (Nat.not_lt_zero u))⟩
  obtain ⟨s2, e, hJ2, hB⟩ := key
  exact ⟨s2, e, hJ2, hB⟩

/-! ## The loop nest, level by level -/

/-- Iterations that enter no window contribute no window. -/
theorem flatMap_const_nil {β γ : Type} (l : List β) : l.flatMap (fun _ => ([] : List γ)) = [] := by
  induction l with
  | nil => rfl
  | cons a l ih => simp [List.flatMap_cons, ih]

/-- Lines 141-144 fill one kernel row: `kernel_w` elements copied from `src_off`. -/
theorem copyRow_block {α : Type} (src : Int → α) (kw W : Int) (good : Int → Int → Prop)
    (st : Im2col α) (s : Int) (hg : good s kw) :
    Block src kw (fun r p => 0 ≤ r ∧ r < kw ∧ p = s + r) good [] st
      (copyRow src kw W (st, s)).1 where
  cursor := rfl
  frame := by
    intro k hk
    have : ¬ (st.mat_data ≤ k ∧ k < st.mat_data + kw) := by omega
    simp [copyRow, memcpy, this]
  content := by
    rintro r p ⟨h0, h1, rfl⟩
    have : st.mat_data ≤ st.mat_data + r ∧ st.mat_data + r < st.mat_data + kw := by omega
    simp only [copyRow, memcpy, this, and_self, if_true]
    congr 1; ring
  trace := ⟨[{ dst := st.mat_data, src := s, len := kw }], rfl, by simp [copied], by
    intro c hc
    simp only [List.mem_singleton] at hc
    subst hc
    exact ⟨hg, le_refl _, le_refl _⟩⟩
  visited := by simp [copyRow]

/-- Lines 139-145: one channel of one window fills `kernel_h` rows of `kernel_w` elements. -/
theorem channelBody_block {α : Type} (src : Int → α) (H W : Int) (kh kw : Nat)
    (sh sw sc : Int) (good : Int → Int → Prop) (fuel : Nat) (hfuel : kh < fuel)
    (hg : ∀ i : Nat, i < kh → good ((sc * H + sh) * W + sw + i * W) kw) (st : Im2col α) :
    ∃ st2, channelBody fuel src H W kh kw sh sw sc st = some st2 ∧
      Block src (kh * kw)
        (fun r p => ∃ (i : Nat) (j : Int), i < kh ∧ 0 ≤ j ∧ j < kw ∧ r = i * kw + j ∧
          p = (sc * H + sh) * W + sw + i * W + j) good [] st st2 := by
  obtain ⟨p2, e, -, hB⟩ := forLoop_blocks src (kw : Int) (Int.ofNat_nonneg kw)
    (fun t r p => 0 ≤ r ∧ r < (kw : Int) ∧ p = (sc * H + sh) * W + sw + t * W + r) good
    (fun _ => []) (Prod.fst : Im2col α × Int → Im2col α)
    (fun t p => p.2 = (sc * H + sh) * W + sw + t * W)
    kh (kh : Int) 1 (fun _ p => some (copyRow src kw W p))
    (by intro t ht; simpa using ht) (by simp)
    (fun t r p h => ⟨h.1, h.2.1⟩)
    (by
      rintro t ⟨st1, s1⟩ ht hJ
      simp only at hJ
      refine ⟨_, rfl, ?_, ?_⟩
      · simp only [copyRow]; rw [hJ]; push_cast; ring
      · exact (copyRow_block src kw W good st1 s1 (hJ ▸ hg t ht)).weaken rfl rfl
          (by rintro r p ⟨h0, h1, rfl⟩; exact ⟨h0, h1, by rw [hJ]⟩))
    fuel hfuel (st, (sc * H + sh) * W + sw) (by simp)
  refine ⟨p2.1, by simp [channelBody, e], ?_⟩
  refine hB.weaken rfl (flatMap_const_nil _) ?_
  rintro r p ⟨i, j, hi, h0, h1, rfl, rfl⟩
  exact ⟨i, j, hi, ⟨h0, h1, rfl⟩, rfl⟩

/-- Offset `r` of block `t` among `n` blocks of `len` elements lies inside the `n * len`
elements. -/
theorem block_offset_bounds (t n : Nat) (len r : Int) (ht : t < n) (h0 : 0 ≤ r) (h1 : r < len) :
    0 ≤ (t : Int) * len + r ∧ (t : Int) * len + r < n * len := by
  have hlen : (0 : Int) ≤ len := by omega
  have a : (0 : Int) ≤ t * len := mul_nonneg (Int.ofNat_nonneg t) hlen
  have b : ((t : Int) + 1) * len ≤ n * len :=
    mul_le_mul_of_nonneg_right (by exact_mod_cast ht) hlen
  constructor
  · omega
  · linarith

/-- Lines 138-146: one window fills one row of the im2col matrix, `C` channels of
`kernel_h * kernel_w` elements, and is recorded as visited. -/
theorem windowBody_block {α : Type} (src : Int → α) (H W : Int) (C kh kw : Nat)
    (sh sw : Int) (good : Int → Int → Prop) (fuel : Nat) (hC : C < fuel) (hkh : kh < fuel)
    (hg : ∀ c i : Nat, c < C → i < kh → good ((c * H + sh) * W + sw + i * W) kw)
    (st : Im2col α) :
    ∃ st2, windowBody fuel src C H W kh kw sh sw st = some st2 ∧
      Block src (C * (kh * kw))
        (fun r p => ∃ (c i : Nat) (j : Int), c < C ∧ i < kh ∧ 0 ≤ j ∧ j < kw ∧
          r = c * (kh * kw) + (i * kw + j) ∧
          p = (c * H + sh) * W + sw + i * W + j) good [(sh, sw)] st st2 := by
  obtain ⟨st2, e, -, hB⟩ := forLoop_blocks src ((kh : Int) * kw)
    (mul_nonneg (Int.ofNat_nonneg kh) (Int.ofNat_nonneg kw))
    (fun c r p => ∃ (i : Nat) (j : Int), i < kh ∧ 0 ≤ j ∧ j < kw ∧ r = i * kw + j ∧
      p = (c * H + sh) * W + sw + i * W + j) good
    (fun _ => []) (id : Im2col α → Im2col α) (fun _ _ => True)
    C (C : Int) 1 (fun sc st => channelBody fuel src H W kh kw sh sw sc st)
    (by intro t ht; simpa using ht) (by simp)
    (by
      rintro t r p ⟨i, j, hi, h0, h1, rfl, -⟩
      exact block_offset_bounds i kh kw j hi h0 h1)
    (by
      intro t st1 ht _
      obtain ⟨st2, e, hB⟩ := channelBody_block src H W kh kw sh sw ((t : Int) * 1) good fuel hkh
        (by intro i hi; simpa using hg t i ht hi) st1
      refine ⟨st2, e, trivial, hB.weaken rfl rfl ?_⟩
      rintro r p ⟨i, j, hi, h0, h1, rfl, rfl⟩
      exact ⟨i, j, hi, h0, h1, rfl, by simp⟩)
    fuel hC { st with windows := st.windows ++ [(sh, sw)] } trivial
  refine ⟨st2, e, ?_⟩
  have hB2 : Block src ((C : Int) * (kh * kw))
      (fun r p => ∃ (c i : Nat) (j : Int), c < C ∧ i < kh ∧ 0 ≤ j ∧ j < kw ∧
        r = c * (kh * kw) + (i * kw + j) ∧
        p = (c * H + sh) * W + sw + i * W + j) good []
      { st with windows := st.windows ++ [(sh, sw)] } st2 :=
    hB.weaken rfl (flatMap_const_nil _) (by
      rintro r p ⟨c, i, j, hc, hi, h0, h1, rfl, rfl⟩
      exact ⟨c, _, hc, ⟨i, j, hi, h0, h1, rfl, rfl⟩, rfl⟩)
  exact ⟨hB2.cursor, hB2.frame, hB2.content, hB2.trace, by simpa using hB2.visited⟩

/-- Lines 137-147: one row of windows fills `nw` rows of the im2col matrix, where `nw` is the
number of iterations of the `sw` loop. -/
theorem rowBody_block {α : Type} (src : Int → α) (H W : Int) (C kh kw nw : Nat)
    (end_w stride_w sh : Int) (good : Int → Int → Prop)
    (hin : ∀ t : Nat, t < nw → (t : Int) * stride_w < end_w) (hout : end_w ≤ nw * stride_w)
    (fuel : Nat) (hnw : nw < fuel) (hC : C < fuel) (hkh : kh < fuel)
    (hg : ∀ b c i : Nat, b < nw → c < C → i < kh →
      good ((c * H + sh) * W + b * stride_w + i * W) kw)
    (st : Im2col α) :
    ∃ st2, rowBody fuel src C H W kh kw end_w stride_w sh st = some st2 ∧
      Block src (nw * (C * (kh * kw)))
        (fun r p => ∃ (b c i : Nat) (j : Int), b < nw ∧ c < C ∧ i < kh ∧ 0 ≤ j ∧ j < kw ∧
          r = b * (C * (kh * kw)) + (c * (kh * kw) + (i * kw + j)) ∧
          p = (c * H + sh) * W + b * stride_w + i * W + j) good
        ((List.range nw).flatMap (fun b => [(sh, (b : Int) * stride_w)])) st st2 := by
  have hlen : (0 : Int) ≤ (C : Int) * (kh * kw) :=
    mul_nonneg (Int.ofNat_nonneg C) (mul_nonneg (Int.ofNat_nonneg kh) (Int.ofNat_nonneg kw))
  obtain ⟨st2, e, -, hB⟩ := forLoop_blocks src ((C : Int) * (kh * kw)) hlen
    (fun b r p => ∃ (c i : Nat) (j : Int), c < C ∧ i < kh ∧ 0 ≤ j ∧ j < kw ∧
          r = c * (kh * kw) + (i * kw + j) ∧
          p = (c * H + sh) * W + b * stride_w + i * W + j) good
    (fun b => [(sh, (b : Int) * stride_w)]) (id : Im2col α → Im2col α) (fun _ _ => True)
    nw end_w stride_w (fun sw st => windowBody fuel src C H W kh kw sh sw st)
    hin hout
    (by
      rintro t r p ⟨c, i, j, hc, hi, h0, h1, rfl, -⟩
      have hb := block_offset_bounds i kh kw j hi h0 h1
      exact block_offset_bounds c C _ _ hc hb.1 hb.2)
    (by
      intro t st1 ht _
      obtain ⟨st2, e, hB⟩ := windowBody_block src H W C kh kw sh ((t : Int) * stride_w) good
        fuel hC hkh (fun c i hc hi => hg t c i ht hc hi) st1
      exact ⟨st2, e, trivial, hB⟩)
    fuel hnw st trivial
  refine ⟨st2, e, hB.weaken rfl rfl ?_⟩
  rintro r p ⟨b, c, i, j, hb, hc, hi, h0, h1, rfl, rfl⟩
  exact ⟨b, _, hb, ⟨c, i, j, hc, hi, h0, h1, rfl, rfl⟩, rfl⟩

/-- Lines 135-148: the loop nest fills `nh * nw` rows of the im2col matrix, where `nh` and `nw`
are the numbers of iterations of the `sh` and `sw` loops. -/
theorem im2col_block {α : Type} (src : Int → α) (H W : Int) (C kh kw nh nw : Nat)
    (end_h end_w stride_h stride_w : Int) (good : Int → Int → Prop)
    (hinh : ∀ t : Nat, t < nh → (t : Int) * stride_h < end_h) (houth : end_h ≤ nh * stride_h)
    (hinw : ∀ t : Nat, t < nw → (t : Int) * stride_w < end_w) (houtw : end_w ≤ nw * stride_w)
    (fuel : Nat) (hnh : nh < fuel) (hnw : nw < fuel) (hC : C < fuel) (hkh : kh < fuel)
    (hg : ∀ a b c i : Nat, a < nh → b < nw → c < C → i < kh →
      good ((c * H + a * stride_h) * W + b * stride_w + i * W) kw)
    (mat_head : Int → α) :
    ∃ st2, im2col fuel src C H W kh kw end_h end_w stride_h stride_w mat_head = some st2 ∧
      Block src (nh * (nw * (C * (kh * kw))))
        (fun r p => ∃ (a b c i : Nat) (j : Int), a < nh ∧ b < nw ∧ c < C ∧ i < kh ∧
          0 ≤ j ∧ j < kw ∧
          r = a * (nw * (C * (kh * kw))) + (b * (C * (kh * kw)) + (c * (kh * kw) + (i * kw + j))) ∧
          p = (c * H + a * stride_h) * W + b * stride_w + i * W + j) good
        ((List.range nh).flatMap (fun a =>
          (List.range nw).flatMap (fun b => [((a : Int) * stride_h, (b : Int) * stride_w)])))
        { mat := mat_head, mat_data := 0, copies := [], windows := [] } st2 := by
  have hlen : (0 : Int) ≤ (nw : Int) * ((C : Int) * (kh * kw)) :=
    mul_nonneg (Int.ofNat_nonneg nw)
      (mul_nonneg (Int.ofNat_nonneg C) (mul_nonneg (Int.ofNat_nonneg kh) (Int.ofNat_nonneg kw)))
  obtain ⟨st2, e, -, hB⟩ := forLoop_blocks src ((nw : Int) * ((C : Int) * (kh * kw))) hlen
    (fun a r p => ∃ (b c i : Nat) (j : Int), b < nw ∧ c < C ∧ i < kh ∧ 0 ≤ j ∧ j < kw ∧
          r = b * (C * (kh * kw)) + (c * (kh * kw) + (i * kw + j)) ∧
          p = (c * H + a * stride_h) * W + b * stride_w + i * W + j) good
    (fun a => (List.range nw).flatMap (fun b => [((a : Int) * stride_h, (b : Int) * stride_w)]))
    (id : Im2col α → Im2col α) (fun _ _ => True)
    nh end_h stride_h
    (fun sh st => rowBody fuel src C H W kh kw end_w stride_w sh st)
    hinh houth
    (by
      rintro t r p ⟨b, c, i, j, hb, hc, hi, h0, h1, rfl, -⟩
      have h1 := block_offset_bounds i kh kw j hi h0 h1
      have h2 := block_offset_bounds c C _ _ hc h1.1 h1.2
      exact block_offset_bounds b nw _ _ hb h2.1 h2.2)
    (by
      intro t st1 ht _
      obtain ⟨st2, e, hB⟩ := rowBody_block src H W C kh kw nw end_w stride_w
        ((t : Int) * stride_h) good hinw houtw fuel hnw hC hkh
        (fun b c i hb hc hi => hg t b c i ht hb hc hi) st1
      exact ⟨st2, e, trivial, hB⟩)
    fuel hnh { mat := mat_head, mat_data := 0, copies := [], windows := [] } trivial
  refine ⟨st2, e, hB.weaken rfl rfl ?_⟩
  rintro r p ⟨a, b, c, i, j, ha, hb, hc, hi, h0, h1, rfl, rfl⟩
  exact ⟨a, _, ha, ⟨b, c, i, j, hb, hc, hi, h0, h1, rfl, rfl⟩, rfl⟩

/-! ## Iteration counts of the window loops -/

/-- The loop `for (s = 0; s < H - kh + 1; s += stride)` makes `(H - kh) / stride + 1`
iterations. -/
theorem window_count (H kh : Nat) (s : Int) (hs : 1 ≤ s) (h : kh ≤ H) :
    ∃ n : Nat, (n : Int) = ((H : Int) - kh).tdiv s + 1 ∧ n ≤ H - kh + 1 ∧
      (∀ t : Nat, t < n → (t : Int) * s < (H : Int) - kh + 1) ∧
      (H : Int) - kh + 1 ≤ n * s := by
  have h0 : (0 : Int) ≤ (H : Int) - kh := by omega
  have hs0 : (0 : Int) < s := by omega
  have hq : (0 : Int) ≤ ((H : Int) - kh) / s := Int.ediv_nonneg h0 (by omega)
  have hmul : ((H : Int) - kh) / s * s ≤ (H : Int) - kh := Int.ediv_mul_le _ (by omega)
  have hlt : (H : Int) - kh < (((H : Int) - kh) / s + 1) * s :=
    Int.lt_ediv_add_one_mul_self _ hs0
  have hle : ((H : Int) - kh) / s ≤ (H : Int) - kh := by
    have : ((H : Int) - kh) / s * 1 ≤ ((H : Int) - kh) / s * s :=
      mul_le_mul_of_nonneg_left hs hq
    linarith
  refine ⟨(((H : Int) - kh) / s + 1).toNat, ?_, ?_, ?_, ?_⟩
  · rw [Int.tdiv_eq_ediv h0 (by omega), Int.toNat_of_nonneg (by omega)]
  · omega
  · intro t ht
    have ht2 : (t : Int) < ((H : Int) - kh) / s + 1 := by omega
    have : (t : Int) * s ≤ ((H : Int) - kh) / s * s :=
      mul_le_mul_of_nonneg_right (by omega) (by omega)
    linarith
  · rw [Int.toNat_of_nonneg (by omega)]
    linarith

/-- Every kernel row read by the loop nest lies inside the `C * H * W` elements of the sample:
`A` and `B` are the window origin, `c` the channel and `i` the kernel row. -/
theorem src_range_ok (C H W kh kw : Nat) (A B : Int) (c i : Nat) (hA0 : 0 ≤ A)
    (hA : A + kh ≤ H) (hB0 : 0 ≤ B) (hB : B + kw ≤ W) (hc : c < C) (hi : i < kh) :
    0 ≤ ((c : Int) * H + A) * W + B + i * W ∧
      ((c : Int) * H + A) * W + B + i * W + kw ≤ (C : Int) * H * W := by
  have hW0 : (0 : Int) ≤ W := Int.ofNat_nonneg W
  have hH0 : (0 : Int) ≤ H := Int.ofNat_nonneg H
  have hc0 : (0 : Int) ≤ c := Int.ofNat_nonneg c
  have hi0 : (0 : Int) ≤ i := Int.ofNat_nonneg i
  have hcH : (0 : Int) ≤ (c : Int) * H := mul_nonneg hc0 hH0
  have h1 : ((c : Int) + 1) * H ≤ (C : Int) * H :=
    mul_le_mul_of_nonneg_right (by exact_mod_cast hc) hH0
  have hR : (c : Int) * H + A + i + 1 ≤ (C : Int) * H := by
    have : (i : Int) < kh := by exact_mod_cast hi
    linarith
  have h2 : ((c : Int) * H + A + i + 1) * W ≤ (C : Int) * H * W :=
    mul_le_mul_of_nonneg_right hR hW0
  have h3 : (0 : Int) ≤ ((c : Int) * H + A + i) * W := mul_nonneg (by linarith) hW0
  constructor
  · have : ((c : Int) * H + A) * W + B + i * W = ((c : Int) * H + A + i) * W + B := by ring
    rw [this]; linarith
  · have : ((c : Int) * H + A) * W + B + i * W + kw
        = ((c : Int) * H + A + i + 1) * W - (W - (B + kw)) := by ring
    rw [this]; linarith

/-- The host-path loop nest on an input of shape `(n, C, H, W)` and a kernel `kh × kw` with
strides of at least 1: it terminates, and what it does is described by `Block` with
`nh = dst_h` and `nw = dst_w` iterations of the window loops. -/
theorem hostIm2col_block {α : Type} (stride_h stride_w : Int) (n C H W O Cw kh kw : Nat)
    (x wd : Int → α) (hsh : 1 ≤ stride_h) (hsw : 1 ≤ stride_w) (hH : kh ≤ H) (hW : kw ≤ W)
    (fuel : Nat) (hfuel : C + H + W + 2 ≤ fuel) (s0 : Int) (mat_head : Int → α) :
    ∃ (nh nw : Nat) (st : Im2col α),
      (nh : Int) = ((H : Int) - kh).tdiv stride_h + 1 ∧
      (nw : Int) = ((W : Int) - kw).tdiv stride_w + 1 ∧
      hostIm2col fuel stride_h stride_w (Blob.ofShape n C H W x)
        (locals stride_h stride_w (Blob.ofShape n C H W x) (Blob.ofShape O Cw kh kw wd))
        s0 mat_head = some st ∧
      Block (fun k => x (s0 + k)) (nh * (nw * (C * (kh * kw))))
        (fun r p => ∃ (a b c i : Nat) (j : Int), a < nh ∧ b < nw ∧ c < C ∧ i < kh ∧
          0 ≤ j ∧ j < kw ∧
          r = a * (nw * (C * (kh * kw))) + (b * (C * (kh * kw)) + (c * (kh * kw) + (i * kw + j))) ∧
          p = (c * H + a * stride_h) * W + b * stride_w + i * W + j)
        (fun s len => len = kw ∧ 0 ≤ s ∧ s + len ≤ (C : Int) * H * W)
        ((List.range nh).flatMap (fun a =>
          (List.range nw).flatMap (fun b => [((a : Int) * stride_h, (b : Int) * stride_w)])))
        { mat := mat_head, mat_data := 0, copies := [], windows := [] } st := by
  obtain ⟨nh, enh, lnh, hinh, houth⟩ := window_count H kh stride_h hsh hH
  obtain ⟨nw, enw, lnw, hinw, houtw⟩ := window_count W kw stride_w hsw hW
  obtain ⟨st, e, hB⟩ := im2col_block (fun k => x (s0 + k)) (H : Int) (W : Int) C kh kw nh nw
    ((H : Int) - kh + 1) ((W : Int) - kw + 1) stride_h stride_w
    (fun s len => len = kw ∧ 0 ≤ s ∧ s + len ≤ (C : Int) * H * W)
    hinh houth hinw houtw fuel (by omega) (by omega) (by omega) (by omega)
    (by
      intro a b c i ha hb hc hi
      have hA := hinh a ha
      have hB := hinw b hb
      have hA0 : (0 : Int) ≤ a * stride_h := mul_nonneg (Int.ofNat_nonneg a) (by omega)
      have hB0 : (0 : Int) ≤ b * stride_w := mul_nonneg (Int.ofNat_nonneg b) (by omega)
      exact ⟨rfl, src_range_ok C H W kh kw _ _ c i hA0 (by omega) hB0 (by omega) hc hi⟩)
    mat_head
  exact ⟨nh, nw, st, enh, enw, e, hB⟩

/-- C5: for `H ≥ kh`, `W ≥ kw` and strides of at least 1 with `stride_h > H - kh` and
`stride_w > W - kw` (in particular when `H = kh` and `W = kw`), `Execute` computes
`dst_h = dst_w = 1` and `dst_size = 1`, and the im2col traversal enters the window at `(0, 0)`
and no other. -/
theorem single_output_position {α : Type} (stride_h stride_w : Int)
    (n C H W O Cw kh kw : Nat) (x wd : Int → α) (hsh : 1 ≤ stride_h) (hsw : 1 ≤ stride_w)
    (hH : kh ≤ H) (hW : kw ≤ W) (hbh : (H : Int) - kh < stride_h)
    (hbw : (W : Int) - kw < stride_w) (fuel : Nat) (hfuel : C + H + W + 2 ≤ fuel)
    (src_data : Int) (mat_head : Int → α) (l : Locals)
    (hl : l = locals stride_h stride_w (Blob.ofShape n C H W x) (Blob.ofShape O Cw kh kw wd)) :
    l.dst_h = 1 ∧ l.dst_w = 1 ∧ l.dst_size = 1 ∧
      ∃ st, hostIm2col fuel stride_h stride_w (Blob.ofShape n C H W x) l src_data mat_head
          = some st ∧
        st.windows = [(0, 0)] := by
  subst hl
  obtain ⟨nh, nw, st, enh, enw, e, hB⟩ := hostIm2col_block stride_h stride_w n C H W O Cw kh kw
    x wd hsh hsw hH hW fuel hfuel src_data mat_head
  have h1 : ((H : Int) - kh).tdiv stride_h = 0 := Int.tdiv_eq_zero_of_lt (by omega) hbh
  have h2 : ((W : Int) - kw).tdiv stride_w = 0 := Int.tdiv_eq_zero_of_lt (by omega) hbw
  have hnh : nh = 1 := by rw [h1] at enh; omega
  have hnw : nw = 1 := by rw [h2] at enw; omega
  subst hnh; subst hnw
  have hdh : (locals stride_h stride_w (Blob.ofShape n C H W x)
      (Blob.ofShape O Cw kh kw wd)).dst_h = 1 := by
    show ((H : Int) - kh).tdiv stride_h + 1 = 1
    rw [h1]; rfl
  have hdw : (locals stride_h stride_w (Blob.ofShape n C H W x)
      (Blob.ofShape O Cw kh kw wd)).dst_w = 1 := by
    show ((W : Int) - kw).tdiv stride_w + 1 = 1
    rw [h2]; rfl
  refine ⟨hdh, hdw, ?_, st, e, ?_⟩
  · show (locals stride_h stride_w (Blob.ofShape n C H W x)
      (Blob.ofShape O Cw kh kw wd)).dst_h * (locals stride_h stride_w (Blob.ofShape n C H W x)
      (Blob.ofShape O Cw kh kw wd)).dst_w = 1
    rw [hdh, hdw]; rfl
  · rw [hB.visited]
    simp [List.range_succ, List.flatMap_cons]

/-- A list sum over `0, ..., k - 1` written as a finite sum. -/
theorem list_sum_range_eq_finset {α : Type} [Semiring α] (f : Nat → α) (k : Nat) :
    ((List.range k).map f).sum = ∑ t in Finset.range k, f t := by
  induction k with
  | zero => simp
  | succ k ih => simp [List.range_succ, Finset.sum_range_succ, ih]

/-- The dot product of two rows of `k` elements as a finite sum. -/
theorem dot_eq_sum {α : Type} [Semiring α] (x y : Int → α) (k : Nat) :
    dot x y (k : Int) = ∑ t in Finset.range k, x (t : Int) * y (t : Int) := by
  simp only [dot, Int.toNat_ofNat]
  exact list_sum_range_eq_finset (fun t => x (t : Int) * y (t : Int)) k

/-- A sum over `m * n` consecutive indices is a sum over `m` blocks of `n` indices. -/
theorem sum_range_mul {α : Type} [AddCommMonoid α] (f : Nat → α) (m n : Nat) :
    ∑ t in Finset.range (m * n), f t
      = ∑ a in Finset.range m, ∑ b in Finset.range n, f (a * n + b) := by
  induction m with
  | zero => simp
  | succ m ih =>
    rw [Nat.succ_mul, Finset.sum_range_add, ih, Finset.sum_range_succ]

/-- The entry of output channel `oc` at position `pos` is the dot product of row `pos` of `A`
and row `oc` of `B`. -/
theorem matrix_procuct_entry {α : Type} [Semiring α] (A B C : Int → α) (n m k : Nat)
    (ta tb : Bool) (oc pos : Nat) (hoc : oc < m) (hpos : pos < n) :
    matrix_procuct A B C n m k ta tb ((oc : Int) * n + pos)
      = ∑ t in Finset.range k, A ((pos : Int) * k + t) * B ((oc : Int) * k + t) := by
  have hb := block_offset_bounds oc m (n : Int) (pos : Int) hoc (Int.ofNat_nonneg pos)
    (by exact_mod_cast hpos)
  have hn : (pos : Int) < n := by exact_mod_cast hpos
  have hmod : ((oc : Int) * n + pos) % n = pos := by
    rw [add_comm, Int.add_mul_emod_self]
    exact Int.emod_eq_of_lt (Int.ofNat_nonneg pos) hn
  have hdiv : ((oc : Int) * n + pos) / n = oc := by
    rw [add_comm, Int.add_mul_ediv_right _ _ (by omega)]
    rw [Int.ediv_eq_zero_of_lt (Int.ofNat_nonneg pos) hn]
    simp
  simp only [matrix_procuct, hb, and_self, if_true, hmod, hdiv]
  exact dot_eq_sum _ _ k

/-- The multiply leaves every entry outside the `m * n` entries of the result as it was. -/
theorem matrix_procuct_frame {α : Type} [Semiring α] (A B C : Int → α) (n m k : Int)
    (ta tb : Bool) (idx : Int) (h : idx < 0 ∨ m * n ≤ idx) :
    matrix_procuct A B C n m k ta tb idx = C idx := by
  have : ¬ (0 ≤ idx ∧ idx < m * n) := by omega
  simp [matrix_procuct, this]

/-! ## One sample on the host path -/

/-- The entries of the im2col matrix built on the host path, with the numbers of windows
`nh = dst_h` and `nw = dst_w` as natural numbers. -/
theorem hostIm2col_entries {α : Type} (stride_h stride_w : Int) (n C H W O Cw kh kw : Nat)
    (x wd : Int → α) (hsh : 1 ≤ stride_h) (hsw : 1 ≤ stride_w) (hH : kh ≤ H) (hW : kw ≤ W)
    (fuel : Nat) (hfuel : C + H + W + 2 ≤ fuel) (s0 : Int) (mat_head : Int → α)
    (nh nw : Nat) (hnh : (nh : Int) = ((H : Int) - kh).tdiv stride_h + 1)
    (hnw : (nw : Int) = ((W : Int) - kw).tdiv stride_w + 1) :
    ∃ st : Im2col α,
      hostIm2col fuel stride_h stride_w (Blob.ofShape n C H W x)
        (locals stride_h stride_w (Blob.ofShape n C H W x) (Blob.ofShape O Cw kh kw wd))
        s0 mat_head = some st ∧
      ∀ oh ow c i j : Nat, oh < nh → ow < nw → c < C → i < kh → j < kw →
        st.mat (((oh * nw + ow : Nat) : Int) * ((C * kh * kw : Nat) : Int)
            + (((c * kh + i) * kw + j : Nat) : Int))
          = x (s0 + (((c : Int) * H + oh * stride_h + i) * W + ow * stride_w + j)) := by
  obtain ⟨nh2, nw2, st, enh, enw, e, hB⟩ := hostIm2col_block stride_h stride_w n C H W O Cw kh kw
    x wd hsh hsw hH hW fuel hfuel s0 mat_head
  have e1 : nh2 = nh := by exact_mod_cast enh.trans hnh.symm
  have e2 : nw2 = nw := by exact_mod_cast enw.trans hnw.symm
  subst e1; subst e2
  refine ⟨st, e, ?_⟩
  intro oh ow c i j hoh how hc hi hj
  have := hB.content
    ((oh : Int) * (nw2 * (C * (kh * kw))) + (ow * (C * (kh * kw)) + (c * (kh * kw) + (i * kw + j))))
    (((c : Int) * H + oh * stride_h) * W + ow * stride_w + i * W + j)
    ⟨oh, ow, c, i, (j : Int), hoh, how, hc, hi, Int.ofNat_nonneg j, by exact_mod_cast hj,
      rfl, rfl⟩
  simp only [zero_add] at this
  have e1 : ((oh * nw2 + ow : Nat) : Int) * ((C * kh * kw : Nat) : Int)
      + (((c * kh + i) * kw + j : Nat) : Int)
      = (oh : Int) * (nw2 * (C * (kh * kw))) + (ow * (C * (kh * kw)) + (c * (kh * kw) + (i * kw + j))) := by
    push_cast; ring
  have e2 : ((c : Int) * H + oh * stride_h + i) * W + ow * stride_w + j
      = ((c : Int) * H + oh * stride_h) * W + ow * stride_w + i * W + j := by ring
  rw [e1, e2]
  exact this

/-- The dot product of an im2col row and a filter row is the sliding-window sum. -/
theorem dot_rows_eq_windowSum {α : Type} [Semiring α] (mat x wd : Int → α)
    (C H W kh kw nw : Nat) (stride_h stride_w s0 : Int) (oc oh ow : Nat)
    (hmat : ∀ c i j : Nat, c < C → i < kh → j < kw →
      mat (((oh * nw + ow : Nat) : Int) * ((C * kh * kw : Nat) : Int)
            + (((c * kh + i) * kw + j : Nat) : Int))
        = x (s0 + (((c : Int) * H + oh * stride_h + i) * W + ow * stride_w + j))) :
    ∑ t in Finset.range (C * kh * kw),
        mat (((oh * nw + ow : Nat) : Int) * ((C * kh * kw : Nat) : Int) + (t : Int))
          * wd ((oc : Int) * ((C * kh * kw : Nat) : Int) + (t : Int))
      = windowSum x wd C H W kh kw stride_h stride_w s0 oc oh ow := by
  rw [sum_range_mul, sum_range_mul]
  unfold windowSum
  refine Finset.sum_congr rfl (fun c hc => ?_)
  refine Finset.sum_congr rfl (fun i hi => ?_)
  refine Finset.sum_congr rfl (fun j hj => ?_)
  rw [hmat c i j (Finset.mem_range.1 hc) (Finset.mem_range.1 hi) (Finset.mem_range.1 hj)]
  congr 2
  push_cast; ring

/-- Lines 126-194 on the host path, for one sample: the im2col matrix of the sample at
`src_data` is multiplied into the first `O * dst_size` entries of `dst_head` (whatever
`dst_data` is), `src_data` and `dst_data` advance, and one device buffer is allocated. -/
theorem sampleBody_host {α : Type} [Semiring α] (CUDA_C : Bool) (G : DeviceMultiply α)
    (stride_h stride_w : Int) (n C H W O Cw kh kw : Nat) (x wd : Int → α)
    (hsh : 1 ≤ stride_h) (hsw : 1 ≤ stride_w) (hH : kh ≤ H) (hW : kw ≤ W)
    (fuel : Nat) (hfuel : C + H + W + 2 ≤ fuel) (heap : Heap α)
    (hpath : useDevice CUDA_C ((C : Int) * kh * kw) (O : Int) = false)
    (nh nw : Nat) (hnh : (nh : Int) = ((H : Int) - kh).tdiv stride_h + 1)
    (hnw : (nw : Int) = ((W : Int) - kw).tdiv stride_w + 1) (st : Exec α) :
    ∃ st2, sampleBody fuel CUDA_C G stride_h stride_w (Blob.ofShape n C H W x)
        (Blob.ofShape O Cw kh kw wd) heap
        (locals stride_h stride_w (Blob.ofShape n C H W x) (Blob.ofShape O Cw kh kw wd)) st
        = some st2 ∧
      st2.src_data = st.src_data + (C : Int) * H * W ∧
      st2.dst_data = st.dst_data + (O : Int) * ((nh : Int) * nw) ∧
      st2.events = st.events ++ [Event.cudaMalloc Buf.dPtr_weights ((C : Int) * kh * kw * O)] ∧
      (∀ k, k < 0 ∨ (O : Int) * ((nh : Int) * nw) ≤ k → st2.dst_head k = st.dst_head k) ∧
      (∀ oc oh ow : Nat, oc < O → oh < nh → ow < nw →
        st2.dst_head (((oc : Int) * nh + oh) * nw + ow)
          = windowSum x wd C H W kh kw stride_h stride_w st.src_data oc oh ow) := by
  obtain ⟨im, e, hent⟩ := hostIm2col_entries stride_h stride_w n C H W O Cw kh kw x wd hsh hsw
    hH hW fuel hfuel st.src_data st.mat_head nh nw hnh hnw
  have hks : (locals stride_h stride_w (Blob.ofShape n C H W x)
      (Blob.ofShape O Cw kh kw wd)).kernel_size = ((C * kh * kw : Nat) : Int) := by
    push_cast; rfl
  have hdc : (locals stride_h stride_w (Blob.ofShape n C H W x)
      (Blob.ofShape O Cw kh kw wd)).dst_channels = (O : Int) := rfl
  have hds : (locals stride_h stride_w (Blob.ofShape n C H W x)
      (Blob.ofShape O Cw kh kw wd)).dst_size = ((nh * nw : Nat) : Int) := by
    push_cast; rw [hnh, hnw]; rfl
  have hoff : (locals stride_h stride_w (Blob.ofShape n C H W x)
      (Blob.ofShape O Cw kh kw wd)).src_num_offset = (C : Int) * H * W := rfl
  have hp : useDevice CUDA_C (locals stride_h stride_w (Blob.ofShape n C H W x)
      (Blob.ofShape O Cw kh kw wd)).kernel_size (locals stride_h stride_w
      (Blob.ofShape n C H W x) (Blob.ofShape O Cw kh kw wd)).dst_channels = false := hpath
  have hdata : (Blob.ofShape O Cw kh kw wd).data = wd := rfl
  generalize locals stride_h stride_w (Blob.ofShape n C H W x) (Blob.ofShape O Cw kh kw wd) = l
    at e hks hdc hds hoff hp ⊢
  refine ⟨{ multiply CUDA_C G (Blob.ofShape O Cw kh kw wd) heap l
      { st with mat_head := im.mat, src_data := st.src_data + l.src_num_offset } with
      dst_data := (multiply CUDA_C G (Blob.ofShape O Cw kh kw wd) heap l
        { st with mat_head := im.mat, src_data := st.src_data + l.src_num_offset }).dst_data
        + l.dst_channels * l.dst_size }, ?_, ?_, ?_, ?_, ?_, ?_⟩
  · simp only [sampleBody, stageInput, hp, e, Option.map_some', Bool.false_eq_true, if_false]
  · simp only [multiply, hp, Bool.false_eq_true, if_false, hoff]
  · simp only [multiply, hp, Bool.false_eq_true, if_false]
    rw [hdc, hds]; push_cast; rfl
  · simp only [multiply, hp, Bool.false_eq_true, if_false]
    rw [hdc, hks]; push_cast; rfl
  · intro k hk
    simp only [multiply, hp, Bool.false_eq_true, if_false]
    rw [hdc, hds, matrix_procuct_frame _ _ _ _ _ _ _ _ _ (by push_cast; exact hk)]
  · intro oc oh ow hoc hoh how
    simp only [multiply, hp, Bool.false_eq_true, if_false]
    rw [hdc, hds, hks, hdata]
    have hpos : oh * nw + ow < nh * nw := by
      have : (oh + 1) * nw ≤ nh * nw := Nat.mul_le_mul_right nw hoh
      rw [Nat.succ_mul] at this
      omega
    have hidx : ((oc : Int) * nh + oh) * nw + ow
        = (oc : Int) * ((nh * nw : Nat) : Int) + ((oh * nw + ow : Nat) : Int) := by
      push_cast; ring
    rw [hidx, matrix_procuct_entry _ _ _ _ _ _ _ _ oc (oh * nw + ow) hoc hpos]
    exact dot_rows_eq_windowSum im.mat x wd C H W kh kw nw stride_h stride_w st.src_data oc oh ow
      (fun c i j hc hi hj => hent oh ow c i j hoh how hc hi hj)

/-! ## The whole call on the host path -/

/-- Lines 84-211 on the host path, for a batch of `n` samples: the call terminates; the output
tensor gets the shape `(n, O, dst_h, dst_w)`; every sample is multiplied into the first
`O * dst_size` entries of `dst_head`, so these hold the result for the last sample and the
rest of `dst_head` is as allocated; `dst_data` ends `n * O * dst_size` elements after
`dPtr_ofm`; each sample allocates one `dPtr_weights` that is not freed. -/
theorem ExecuteAfterCheck_host {α : Type} [Semiring α] (CUDA_C : Bool) (G : DeviceMultiply α)
    (stride_h stride_w : Int) (n C H W O Cw kh kw : Nat) (x wd : Int → α)
    (hsh : 1 ≤ stride_h) (hsw : 1 ≤ stride_w) (hH : kh ≤ H) (hW : kw ≤ W)
    (fuel : Nat) (hfuel : n + C + H + W + 2 ≤ fuel) (heap : Heap α)
    (hpath : useDevice CUDA_C ((C : Int) * kh * kw) (O : Int) = false)
    (nh nw : Nat) (hnh : (nh : Int) = ((H : Int) - kh).tdiv stride_h + 1)
    (hnw : (nw : Int) = ((W : Int) - kw).tdiv stride_w + 1) :
    ∃ r, ExecuteAfterCheck fuel CUDA_C G stride_h stride_w (Blob.ofShape n C H W x)
        (Blob.ofShape O Cw kh kw wd) heap = some r ∧
      r.status = Status.ok ∧
      (r.output.num = n ∧ r.output.channels = O ∧ r.output.height = nh ∧ r.output.width = nw) ∧
      r.dst_data = (n : Int) * ((O : Int) * ((nh : Int) * nw)) ∧
      r.events = (allocate heap (locals stride_h stride_w (Blob.ofShape n C H W x)
            (Blob.ofShape O Cw kh kw wd))).events
          ++ List.replicate n (Event.cudaMalloc Buf.dPtr_weights ((C : Int) * kh * kw * O))
          ++ [Event.hostDelete Buf.mat_head, Event.hostDelete Buf.dst_head,
              Event.cudaFree Buf.dPtr_ifm, Event.cudaFree Buf.dPtr_ofm] ∧
      (∀ k, k < 0 ∨ (O : Int) * ((nh : Int) * nw) ≤ k → r.output.data k = heap.dst_head k) ∧
      (∀ m : Nat, n = m + 1 → ∀ oc oh ow : Nat, oc < O → oh < nh → ow < nw →
        r.output.data (((oc : Int) * nh + oh) * nw + ow)
          = windowSum x wd C H W kh kw stride_h stride_w ((m : Int) * ((C : Int) * H * W))
              oc oh ow) := by
  have key := forLoop_inv n 1 (n : Int)
    (fun _ st => sampleBody fuel CUDA_C G stride_h stride_w (Blob.ofShape n C H W x)
      (Blob.ofShape O Cw kh kw wd) heap
      (locals stride_h stride_w (Blob.ofShape n C H W x) (Blob.ofShape O Cw kh kw wd)) st)
    (fun t st =>
      st.src_data = (t : Int) * ((C : Int) * H * W) ∧
      st.dst_data = (t : Int) * ((O : Int) * ((nh : Int) * nw)) ∧
      st.events = (allocate heap (locals stride_h stride_w (Blob.ofShape n C H W x)
            (Blob.ofShape O Cw kh kw wd))).events
          ++ List.replicate t (Event.cudaMalloc Buf.dPtr_weights ((C : Int) * kh * kw * O)) ∧
      (∀ k, k < 0 ∨ (O : Int) * ((nh : Int) * nw) ≤ k → st.dst_head k = heap.dst_head k) ∧
      (∀ m : Nat, t = m + 1 → ∀ oc oh ow : Nat, oc < O → oh < nh → ow < nw →
        st.dst_head (((oc : Int) * nh + oh) * nw + ow)
          = windowSum x wd C H W kh kw stride_h stride_w ((m : Int) * ((C : Int) * H * W))
              oc oh ow))
    0 fuel
    (allocate heap (locals stride_h stride_w (Blob.ofShape n C H W x)
      (Blob.ofShape O Cw kh kw wd)))
    (by intro t ht; simpa using ht) (by simp)
    (by
      rintro t st ht ⟨i1, i2, i3, i4, -⟩
      obtain ⟨st2, e, h1, h2, h3, h4, h5⟩ := sampleBody_host CUDA_C G stride_h stride_w
        n C H W O Cw kh kw x wd hsh hsw hH hW fuel (by omega) heap hpath nh nw hnh hnw st
      refine ⟨st2, e, ?_, ?_, ?_, ?_, ?_⟩
      · rw [h1, i1]; push_cast; ring
      · rw [h2, i2]; push_cast; ring
      · rw [h3, i3, List.replicate_succ', List.append_assoc]
      · intro k hk; rw [h4 k hk, i4 k hk]
      · intro m hm oc oh ow hoc hoh how
        have : m = t := by omega
        subst this
        rw [h5 oc oh ow hoc hoh how, i1])
    (by omega)
    ⟨by simp [allocate], by simp [allocate], by simp, fun _ _ => rfl,
      fun m hm => absurd hm (by omega)⟩
  obtain ⟨st, e, j1, j2, j3, j4, j5⟩ := key
  refine ⟨finish (locals stride_h stride_w (Blob.ofShape n C H W x)
      (Blob.ofShape O Cw kh kw wd)) st, ?_, rfl, ⟨rfl, rfl, hnh.symm, hnw.symm⟩, j2, ?_, j4, j5⟩
  · show Option.map _ (forLoop fuel 0 (n : Int) 1 _ _) = _
    rw [e]; rfl
  · simp only [finish]; rw [j3]

/-! ## The whole call on the accelerator path -/

/-- Lines 126-194 on the accelerator path, for one sample: the raw sample at `src_data` is
copied to `dPtr_ifm`, the accelerator multiply gets the two device buffers and the three
sizes, its result is fetched into the first `size_ofm` entries of `dst_head`, and
`dPtr_weights` is allocated and freed; `src_data` stays where it is. -/
theorem sampleBody_device {α : Type} [Semiring α] (fuel : Nat) (CUDA_C : Bool)
    (G : DeviceMultiply α) (stride_h stride_w : Int) (input weight : Blob α) (heap : Heap α)
    (l : Locals) (hp : useDevice CUDA_C l.kernel_size l.dst_channels = true) (st : Exec α) :
    ∃ st2, sampleBody fuel CUDA_C G stride_h stride_w input weight heap l st = some st2 ∧
      st2.src_data = st.src_data ∧
      st2.dst_data = st.dst_data + l.dst_channels * l.dst_size ∧
      st2.events = st.events ++ [Event.cudaMalloc Buf.dPtr_weights (l.kernel_size * l.dst_channels),
        Event.cudaFree Buf.dPtr_weights] ∧
      st2.dst_head = memcpy st.dst_head 0
        (G (memcpy st.dPtr_ifm 0 input.data st.src_data l.size_ifm)
          (memcpy heap.dPtr_weights 0 weight.data 0 (l.kernel_size * l.dst_channels))
          st.dPtr_ofm l.dst_size l.dst_channels l.kernel_size) 0 l.size_ofm := by
  refine ⟨{ multiply CUDA_C G weight heap l
      { st with dPtr_ifm := memcpy st.dPtr_ifm 0 input.data st.src_data l.size_ifm } with
      dst_data := (multiply CUDA_C G weight heap l
        { st with dPtr_ifm := memcpy st.dPtr_ifm 0 input.data st.src_data l.size_ifm }).dst_data
        + l.dst_channels * l.dst_size }, ?_, ?_, ?_, ?_, ?_⟩
  · simp only [sampleBody, stageInput, hp, if_true, Option.map_some']
  · simp only [multiply, hp, if_true]
  · simp only [multiply, hp, if_true]
  · simp only [multiply, hp, if_true, List.append_assoc, List.singleton_append]
  · simp only [multiply, hp, if_true]

/-- Lines 84-211 on the accelerator path, for a batch of `n` samples: the call terminates
whatever the accelerator multiply computes, the output tensor gets the shape
`(n, O, dst_h, dst_w)`, every `dPtr_weights` is freed, and for a single sample the output data
is the initial `dst_head` overwritten, on its first `size_ofm` entries, by the result of the
accelerator multiply on the raw input. -/
theorem ExecuteAfterCheck_device {α : Type} [Semiring α] (CUDA_C : Bool) (G : DeviceMultiply α)
    (stride_h stride_w : Int) (input weight : Blob α) (n : Nat) (hn : input.num = n)
    (fuel : Nat) (hfuel : n < fuel) (heap : Heap α) (l : Locals)
    (hl : l = locals stride_h stride_w input weight)
    (hp : useDevice CUDA_C l.kernel_size l.dst_channels = true) :
    ∃ r, ExecuteAfterCheck fuel CUDA_C G stride_h stride_w input weight heap = some r ∧
      r.status = Status.ok ∧
      (r.output.num = n ∧ r.output.channels = l.dst_channels ∧ r.output.height = l.dst_h ∧
        r.output.width = l.dst_w) ∧
      r.events = (allocate heap l).events
          ++ (List.range n).flatMap (fun _ =>
              [Event.cudaMalloc Buf.dPtr_weights (l.kernel_size * l.dst_channels),
                Event.cudaFree Buf.dPtr_weights])
          ++ [Event.hostDelete Buf.mat_head, Event.hostDelete Buf.dst_head,
              Event.cudaFree Buf.dPtr_ifm, Event.cudaFree Buf.dPtr_ofm] ∧
      (n = 1 → r.output.data = memcpy heap.dst_head 0
        (G (memcpy heap.dPtr_ifm 0 input.data 0 l.size_ifm)
          (memcpy heap.dPtr_weights 0 weight.data 0 (l.kernel_size * l.dst_channels))
          heap.dPtr_ofm l.dst_size l.dst_channels l.kernel_size) 0 l.size_ofm) := by
  have key := forLoop_inv n 1 (n : Int)
    (fun _ st => sampleBody fuel CUDA_C G stride_h stride_w input weight heap l st)
    (fun t st =>
      st.events = (allocate heap l).events
          ++ (List.range t).flatMap (fun _ =>
              [Event.cudaMalloc Buf.dPtr_weights (l.kernel_size * l.dst_channels),
                Event.cudaFree Buf.dPtr_weights]) ∧
      (t = 0 → st = allocate heap l) ∧
      (t = 1 → st.dst_head = memcpy heap.dst_head 0
        (G (memcpy heap.dPtr_ifm 0 input.data 0 l.size_ifm)
          (memcpy heap.dPtr_weights 0 weight.data 0 (l.kernel_size * l.dst_channels))
          heap.dPtr_ofm l.dst_size l.dst_channels l.kernel_size) 0 l.size_ofm))
    0 fuel (allocate heap l)
    (by intro t ht; simpa using ht) (by simp)
    (by
      rintro t st ht ⟨i1, i2, -⟩
      obtain ⟨st2, e, -, -, h3, h4⟩ := sampleBody_device fuel CUDA_C G stride_h stride_w
        input weight heap l hp st
      refine ⟨st2, e, ?_, fun h => absurd h (by omega), ?_⟩
      · rw [h3, i1, List.range_succ, List.flatMap_append, List.append_assoc]
        simp [List.flatMap_cons]
      · intro h1
        have h0 : t = 0 := by omega
        rw [h4, i2 h0]
        rfl)
    hfuel ⟨by simp, fun _ => rfl, fun h => absurd h (by omega)⟩
  obtain ⟨st, e, j1, -, j3⟩ := key
  refine ⟨finish l st, ?_, rfl, ⟨?_, rfl, rfl, rfl⟩, ?_, j3⟩
  · subst hl
    show Option.map _ (forLoop fuel 0 input.num 1 _ _) = _
    rw [hn, e]; rfl
  · subst hl; exact hn
  · simp only [finish]; rw [j1]

/-! ## The whole call: claims C1, C2, C10 -/

/-- C8: a call whose input channel count differs from the filter bank's input-channel count
ends with ShapeMismatch before anything else happens: no allocation or release call is made
(the event trace is empty), the output tensor is the one the call started with, and the
pointer `dst_data` is never set up; and whenever the check lets a call through, the
`kernel_size` that lines 104 and 116 take from the input's channel count is the filter bank's
per-output-channel element count `in_channels * kernel_h * kernel_w`. -/
theorem channel_mismatch_fails_before_allocation {α : Type} [Semiring α] (fuel : Nat)
    (CUDA_C : Bool) (G : DeviceMultiply α) (stride_h stride_w : Int)
    (input weight output : Blob α) (heap : Heap α) :
    (input.channels ≠ weight.channels →
      Execute fuel CUDA_C G stride_h stride_w input weight output heap
        = some { status := Status.ShapeMismatch, output := output, events := [],
                 dst_data := 0 }) ∧
    (CheckInput input weight = true →
      (locals stride_h stride_w input weight).kernel_size
        = weight.channels * weight.height * weight.width) := by
  constructor
  · intro h
    simp [Execute, CheckInput, h]
  · intro h
    simp only [CheckInput, Bool.and_eq_true, decide_eq_true_eq] at h
    show input.channels * weight.height * weight.width = _
    rw [h.1.1]

/-- `deviceAllocs` is additive over concatenation. -/
theorem deviceAllocs_append (a b : List Event) :
    deviceAllocs (a ++ b) = deviceAllocs a + deviceAllocs b := by
  simp [deviceAllocs, List.countP_append]

/-- `deviceFrees` is additive over concatenation. -/
theorem deviceFrees_append (a b : List Event) :
    deviceFrees (a ++ b) = deviceFrees a + deviceFrees b := by
  simp [deviceFrees, List.countP_append]

/-- `hostAllocs` is additive over concatenation. -/
theorem hostAllocs_append (a b : List Event) :
    hostAllocs (a ++ b) = hostAllocs a + hostAllocs b := by
  simp [hostAllocs, List.countP_append]

/-- `hostFrees` is additive over concatenation. -/
theorem hostFrees_append (a b : List Event) :
    hostFrees (a ++ b) = hostFrees a + hostFrees b := by
  simp [hostFrees, List.countP_append]

/-- The counts of `n` allocations of `dPtr_weights` that are never freed (host path). -/
theorem counts_replicate_weights (n : Nat) (k : Int) :
    deviceAllocs (List.replicate n (Event.cudaMalloc Buf.dPtr_weights k)) = n ∧
    deviceFrees (List.replicate n (Event.cudaMalloc Buf.dPtr_weights k)) = 0 ∧
    hostAllocs (List.replicate n (Event.cudaMalloc Buf.dPtr_weights k)) = 0 ∧
    hostFrees (List.replicate n (Event.cudaMalloc Buf.dPtr_weights k)) = 0 := by
  induction n with
  | zero => simp [deviceAllocs, deviceFrees, hostAllocs, hostFrees]
  | succ n ih =>
    obtain ⟨a, b, c, d⟩ := ih
    simp only [deviceAllocs, deviceFrees, hostAllocs, hostFrees] at a b c d ⊢
    simp [List.replicate_succ, List.countP_cons, a, b, c, d]

/-- The counts of `n` allocations of `dPtr_weights`, each followed by its release (accelerator
path). -/
theorem counts_flatMap_weights (n : Nat) (k : Int) :
    deviceAllocs ((List.range n).flatMap (fun _ =>
      [Event.cudaMalloc Buf.dPtr_weights k, Event.cudaFree Buf.dPtr_weights])) = n ∧
    deviceFrees ((List.range n).flatMap (fun _ =>
      [Event.cudaMalloc Buf.dPtr_weights k, Event.cudaFree Buf.dPtr_weights])) = n ∧
    hostAllocs ((List.range n).flatMap (fun _ =>
      [Event.cudaMalloc Buf.dPtr_weights k, Event.cudaFree Buf.dPtr_weights])) = 0 ∧
    hostFrees ((List.range n).flatMap (fun _ =>
      [Event.cudaMalloc Buf.dPtr_weights k, Event.cudaFree Buf.dPtr_weights])) = 0 := by
  induction n with
  | zero => simp [deviceAllocs, deviceFrees, hostAllocs, hostFrees]
  | succ n ih =>
    obtain ⟨a, b, c, d⟩ := ih
    rw [List.range_succ, List.flatMap_append, deviceAllocs_append, deviceFrees_append,
      hostAllocs_append, hostFrees_append, a, b, c, d]
    simp [deviceAllocs, deviceFrees, hostAllocs, hostFrees, List.flatMap_cons]

/-- C7 (what the code does): for every batch size `n` (valid shapes, strides of at least 1), a
call makes 2 host allocations and 2 host releases and `n + 2` device allocations; it frees
`n + 2` device buffers on the accelerator path but only 2 on the host path, because the
`dPtr_weights` allocated for each sample at line 165 is freed inside the accelerator branch
(line 179) and nowhere else. -/
theorem dPtr_weights_freed_on_accelerator_path_only {α : Type} [Semiring α] (CUDA_C : Bool)
    (G : DeviceMultiply α) (stride_h stride_w : Int) (n C H W O Cw kh kw : Nat)
    (x wd : Int → α) (hsh : 1 ≤ stride_h) (hsw : 1 ≤ stride_w) (hH : kh ≤ H) (hW : kw ≤ W)
    (fuel : Nat) (hfuel : n + C + H + W + 2 ≤ fuel) (heap : Heap α) (l : Locals)
    (hl : l = locals stride_h stride_w (Blob.ofShape n C H W x) (Blob.ofShape O Cw kh kw wd)) :
    ∃ r, ExecuteAfterCheck fuel CUDA_C G stride_h stride_w (Blob.ofShape n C H W x)
        (Blob.ofShape O Cw kh kw wd) heap = some r ∧
      hostAllocs r.events = 2 ∧ hostFrees r.events = 2 ∧
      deviceAllocs r.events = n + 2 ∧
      deviceFrees r.events
        = if useDevice CUDA_C l.kernel_size l.dst_channels = true then n + 2 else 2 := by
  subst hl
  cases hp : useDevice CUDA_C (locals stride_h stride_w (Blob.ofShape n C H W x)
      (Blob.ofShape O Cw kh kw wd)).kernel_size (locals stride_h stride_w
      (Blob.ofShape n C H W x) (Blob.ofShape O Cw kh kw wd)).dst_channels
  · obtain ⟨nh, enh, -⟩ := window_count H kh stride_h hsh hH
    obtain ⟨nw, enw, -⟩ := window_count W kw stride_w hsw hW
    obtain ⟨r, e, -, -, -, hev, -⟩ := ExecuteAfterCheck_host CUDA_C G stride_h stride_w
      n C H W O Cw kh kw x wd hsh hsw hH hW fuel hfuel heap hp nh nw enh enw
    obtain ⟨a, b, c, d⟩ := counts_replicate_weights n ((C : Int) * kh * kw * O)
    refine ⟨r, e, ?_, ?_, ?_, ?_⟩
    · rw [hev, hostAllocs_append, hostAllocs_append, c]
      simp [hostAllocs, allocate]
    · rw [hev, hostFrees_append, hostFrees_append, d]
      simp [hostFrees, allocate]
    · rw [hev, deviceAllocs_append, deviceAllocs_append, a]
      simp [deviceAllocs, allocate]; omega
    · rw [hev, deviceFrees_append, deviceFrees_append, b]
      simp [deviceFrees, allocate]
  · obtain ⟨r, e, -, -, hev, -⟩ := ExecuteAfterCheck_device CUDA_C G stride_h stride_w
      (Blob.ofShape n C H W x) (Blob.ofShape O Cw kh kw wd) n rfl fuel (by omega) heap _ rfl hp
    obtain ⟨a, b, c, d⟩ := counts_flatMap_weights n
      ((locals stride_h stride_w (Blob.ofShape n C H W x)
        (Blob.ofShape O Cw kh kw wd)).kernel_size * (locals stride_h stride_w
        (Blob.ofShape n C H W x) (Blob.ofShape O Cw kh kw wd)).dst_channels)
    refine ⟨r, e, ?_, ?_, ?_, ?_⟩
    · rw [hev, hostAllocs_append, hostAllocs_append, c]
      simp [hostAllocs, allocate]
    · rw [hev, hostFrees_append, hostFrees_append, d]
      simp [hostFrees, allocate]
    · rw [hev, deviceAllocs_append, deviceAllocs_append, a]
      simp [deviceAllocs, allocate]; omega
    · rw [hev, deviceFrees_append, deviceFrees_append, b]
      simp [deviceFrees, allocate]

/-! ## The two execution paths: claim C6 -/

/-- C5 at the `5 × 5` input with a `3 × 3` kernel and stride 5 (larger than `5 - 3`). -/
theorem single_output_position_witness :
    ((1 : Int) ≤ 5 ∧ 3 ≤ 5 ∧ ((5 : Nat) : Int) - ((3 : Nat) : Int) < 5 ∧ 1 + 5 + 5 + 2 ≤ 20) ∧
    (locals 5 5 (Blob.ofShape 1 1 5 5 ramp) (Blob.ofShape 1 1 3 3 ones)).dst_size = 1 ∧
    ∃ st, hostIm2col 20 5 5 (Blob.ofShape 1 1 5 5 ramp)
        (locals 5 5 (Blob.ofShape 1 1 5 5 ramp) (Blob.ofShape 1 1 3 3 ones)) 0 (fun _ => 0)
        = some st ∧
      st.windows = [(0, 0)] := by
  obtain ⟨-, -, hs, st, e, hw⟩ := single_output_position 5 5 1 1 5 5 1 1 3 3 ramp ones
    (by decide) (by decide) (by decide) (by decide) (by decide) (by decide) 20 (by decide) 0
    (fun _ => 0) _ rfl
  exact ⟨⟨by decide, by decide, by decide, by decide⟩, hs, st, e, hw⟩

/-- C7 at the failing input: the `5 × 5` scenario on the host path allocates 3 device buffers
and frees 2. -/
theorem dPtr_weights_freed_on_accelerator_path_only_witness :
    ((1 : Int) ≤ 1 ∧ 3 ≤ 5 ∧ 1 + 1 + 5 + 5 + 2 ≤ 20) ∧
    ∃ r, ExecuteAfterCheck 20 false idleDevice 1 1 (Blob.ofShape 1 1 5 5 ramp)
        (Blob.ofShape 1 1 3 3 ones) zeroHeap = some r ∧
      hostAllocs r.events = 2 ∧ hostFrees r.events = 2 ∧
      deviceAllocs r.events = 3 ∧ deviceFrees r.events = 2 := by
  obtain ⟨r, e, a, b, c, d⟩ := dPtr_weights_freed_on_accelerator_path_only false idleDevice
    1 1 1 1 5 5 1 1 3 3 ramp ones (by decide) (by decide) (by decide) (by decide) 20 (by decide)
    zeroHeap _ rfl
  exact ⟨⟨by decide, by decide, by decide⟩, r, e, a, b, c, d.trans (by decide)⟩

/-- C8 at a three-channel `5 × 5` input against a single-channel `3 × 3` filter bank: the call
ends with ShapeMismatch, no event and the output tensor untouched; and at the matching
single-channel input the check passes with `kernel_size = 1 * 3 * 3`. -/
theorem channel_mismatch_fails_before_allocation_witness :
    ((Blob.ofShape 1 3 5 5 ramp).channels ≠ (Blob.ofShape 1 1 3 3 ones).channels ∧
      CheckInput (Blob.ofShape 1 1 5 5 ramp) (Blob.ofShape 1 1 3 3 ones) = true) ∧
    Execute 20 false idleDevice 1 1 (Blob.ofShape 1 3 5 5 ramp) (Blob.ofShape 1 1 3 3 ones)
        (Blob.ofShape 0 0 0 0 ones) zeroHeap
      = some { status := Status.ShapeMismatch, output := Blob.ofShape 0 0 0 0 ones,
               events := [], dst_data := 0 } ∧
    (locals 1 1 (Blob.ofShape 1 1 5 5 ramp) (Blob.ofShape 1 1 3 3 ones)).kernel_size = 9 :=
  ⟨⟨by decide, by decide⟩,
    (channel_mismatch_fails_before_allocation 20 false idleDevice 1 1
      (Blob.ofShape 1 3 5 5 ramp) (Blob.ofShape 1 1 3 3 ones) (Blob.ofShape 0 0 0 0 ones)
      zeroHeap).1 (by decide),
    ((channel_mismatch_fails_before_allocation 20 false idleDevice 1 1
      (Blob.ofShape 1 1 5 5 ramp) (Blob.ofShape 1 1 3 3 ones) (Blob.ofShape 0 0 0 0 ones)
      zeroHeap).2 (by decide)).trans (by decide)⟩

end ConvNet
